import Mathlib

/-!
# Formal model of the waconnect-go wire-protocol core

A shallow embedding, in Lean 4, of the parts of the `waconnect-go` repository
that the verified claims are about:

* the varint and protobuf-subset codec (`internal/core/qrcode.go`),
* the Noise handshake state machine (`internal/core/noise.go`),
* the dictionary-compressed binary-node codec (`internal/core`, binary-node file),
* the session supervisor (`internal/client`, session-manager file).

Conventions used throughout:

* Go byte strings (`[]byte`, `string`) are modelled as `List Nat`, each element a
  byte value `< 256`.  Where Go performs a narrowing conversion (`byte(x)`,
  `uint16(x)`, `uint32(x)`, `uint64` arithmetic) the model takes the value
  modulo the corresponding power of two, exactly where the source casts.
* External cryptographic primitives called by the source (AES-GCM from
  `crypto/aes` + `crypto/cipher`, X25519 from `golang.org/x/crypto/curve25519`,
  HKDF from `golang.org/x/crypto/hkdf`) are parameters of the model
  (`CryptoPrims`): the handler's own control flow, state updates and nonce
  handling are modelled exactly, for every possible behaviour of the
  primitives.  SHA-256 (`crypto/sha256`) is modelled concretely, since one
  claim compares a state component against a SHA-256 value.
* Recursive functions whose Go originals loop on a shrinking buffer are given
  a structural fuel argument so that they reduce inside the kernel; the fuel
  supplied at each top-level entry point provably dominates the recursion
  depth, and the fuel-indexed functions are only ever used with such fuel.
-/

set_option maxRecDepth 100000

/-- Bytes of an ASCII Lean string literal (used for protocol constants and the
token dictionary, all of which are ASCII in the source). -/
def strBytes (s : String) : List Nat := s.data.map Char.toNat

/-- Big-endian 2-byte encoding of a value `< 2^16` (Go `binary.BigEndian.PutUint16`). -/
def be16 (n : Nat) : List Nat := [n / 256 % 256, n % 256]

/-- Big-endian 4-byte encoding of a value `< 2^32` (Go `binary.BigEndian.PutUint32`). -/
def be32 (n : Nat) : List Nat :=
  [n / 16777216 % 256, n / 65536 % 256, n / 256 % 256, n % 256]

/-- Big-endian 8-byte encoding of a value `< 2^64` (Go SHA-256 length field). -/
def be64 (n : Nat) : List Nat :=
  [n / 72057594037927936 % 256, n / 281474976710656 % 256, n / 1099511627776 % 256,
   n / 4294967296 % 256, n / 16777216 % 256, n / 65536 % 256, n / 256 % 256, n % 256]

/-- Truncation to a 32-bit word. -/
def w32 (n : Nat) : Nat := n % 4294967296

/-! ## SHA-256 (`crypto/sha256`), FIPS 180-4 -/

/-- Right rotation of a 32-bit word. -/
def rotr32 (n x : Nat) : Nat := w32 ((x >>> n) ||| (x <<< (32 - n)))

/-- The SHA-256 round constants. -/
def shaK : List Nat :=
  [1116352408, 1899447441, 3049323471, 3921009573, 961987163, 1508970993,
   2453635748, 2870763221, 3624381080, 310598401, 607225278, 1426881987,
   1925078388, 2162078206, 2614888103, 3248222580, 3835390401, 4022224774,
   264347078, 604807628, 770255983, 1249150122, 1555081692, 1996064986,
   2554220882, 2821834349, 2952996808, 3210313671, 3336571891, 3584528711,
   113926993, 338241895, 666307205, 773529912, 1294757372, 1396182291,
   1695183700, 1986661051, 2177026350, 2456956037, 2730485921, 2820302411,
   3259730800, 3345764771, 3516065817, 3600352804, 4094571909, 275423344,
   430227734, 506948616, 659060556, 883997877, 958139571, 1322822218,
   1537002063, 1747873779, 1955562222, 2024104815, 2227730452, 2361852424,
   2428436474, 2756734187, 3204031479, 3329325298]

/-- The SHA-256 initial hash value. -/
def shaH0 : List Nat :=
  [1779033703, 3144134277, 1013904242, 2773480762,
   1359893119, 2600822924, 528734635, 1541459225]

/-- Group a byte list into big-endian 32-bit words. -/
def bytesToWords : List Nat → List Nat
  | a :: b :: c :: d :: rest => (a * 16777216 + b * 65536 + c * 256 + d) :: bytesToWords rest
  | _ => []

/-- SHA-256 message padding: `0x80`, zeros to 56 mod 64, then the bit length. -/
def sha256Pad (msg : List Nat) : List Nat :=
  msg ++ [0x80] ++ List.replicate ((119 - msg.length % 64) % 64) 0 ++ be64 (8 * msg.length)

/-- One step of the message-schedule extension; the accumulator holds the words
most recent first. -/
def shaExtendLoop : Nat → List Nat → List Nat
  | 0, acc => acc
  | k + 1, acc =>
    let s0 := w32 (rotr32 7 (acc.getD 14 0) ^^^ rotr32 18 (acc.getD 14 0) ^^^ (acc.getD 14 0 >>> 3))
    let s1 := w32 (rotr32 17 (acc.getD 1 0) ^^^ rotr32 19 (acc.getD 1 0) ^^^ (acc.getD 1 0 >>> 10))
    shaExtendLoop k (w32 (acc.getD 15 0 + s0 + acc.getD 6 0 + s1) :: acc)

/-- The 64-word message schedule of one block. -/
def shaSchedule (block16 : List Nat) : List Nat := (shaExtendLoop 48 block16.reverse).reverse

/-- One SHA-256 compression round; the state is the 8-word list `[a,…,h]`. -/
def shaRound (st : List Nat) (kw : Nat × Nat) : List Nat :=
  match st with
  | [a, b, c, d, e, f, g, h] =>
    let s1 := w32 (rotr32 6 e ^^^ rotr32 11 e ^^^ rotr32 25 e)
    let ch := w32 ((e &&& f) ^^^ ((e ^^^ 4294967295) &&& g))
    let t1 := w32 (h + s1 + ch + kw.1 + kw.2)
    let s0 := w32 (rotr32 2 a ^^^ rotr32 13 a ^^^ rotr32 22 a)
    let mj := w32 ((a &&& b) ^^^ (a &&& c) ^^^ (b &&& c))
    let t2 := w32 (s0 + mj)
    [w32 (t1 + t2), a, b, c, w32 (d + t1), e, f, g]
  | other => other

/-- Compress one 64-byte block into the running hash state. -/
def shaCompress (h : List Nat) (block : List Nat) : List Nat :=
  let st := (shaK.zip (shaSchedule (bytesToWords block))).foldl shaRound h
  (h.zip st).map (fun p => w32 (p.1 + p.2))

/-- Split a byte list into 64-byte chunks (fuel-indexed; one unit of fuel per
chunk, so fuel `≥ length` always suffices). -/
def chunks64F : Nat → List Nat → List (List Nat)
  | 0, _ => []
  | _ + 1, [] => []
  | f + 1, a :: rest => ((a :: rest).take 64) :: chunks64F f ((a :: rest).drop 64)

/-- SHA-256 of a byte string, as 32 bytes. -/
def sha256 (msg : List Nat) : List Nat :=
  let padded := sha256Pad msg
  (((chunks64F padded.length padded).foldl shaCompress shaH0).map be32).flatten

example : sha256 [] =
    [227, 176, 196, 66, 152, 252, 28, 20, 154, 251,
   244, 200, 153, 111, 185, 36, 39, 174, 65, 228,
   100, 155, 147, 76, 164, 149, 153, 27, 120, 82,
   184, 85] := by
  decide

example : sha256 (strBytes "abc") =
    [186, 120, 22, 191, 143, 1, 207, 234, 65, 65,
   64, 222, 93, 174, 34, 35, 176, 3, 97, 163,
   150, 23, 122, 156, 180, 16, 255, 97, 242, 0,
   21, 173] := by
  decide

/-! ## Varints (`encodeVarint` / `decodeVarint` in `internal/core/qrcode.go`) -/

/-- The byte chunks the `for n > 0` loop of Go `encodeVarint` appends
(fuel-indexed; the value strictly shrinks by `/ 128` each step, so fuel `≥ n`
always suffices). -/
def varintChunksF : Nat → Nat → List Nat
  | 0, _ => []
  | f + 1, n =>
    if n = 0 then []
    else (if n / 128 > 0 then (n &&& 0x7F) ||| 0x80 else n &&& 0x7F) :: varintChunksF f (n / 128)

/-- Go `encodeVarint`: unsigned LEB128; zero encodes as a single zero byte. -/
def encodeVarint (n : Nat) : List Nat := if n = 0 then [0] else varintChunksF n n

/-- The `for i, b := range data` loop of Go `decodeVarint`, carrying the
accumulated value, the shift, and the index. -/
def decodeVarintLoop : List Nat → Nat → Nat → Nat → Nat × Nat
  | [], _, _, _ => (0, 0)
  | b :: rest, acc, shift, i =>
    let acc2 := acc ||| ((b &&& 0x7F) <<< shift % 18446744073709551616)
    if b < 0x80 then (acc2, i + 1)
    else if shift + 7 ≥ 64 then (0, 0)
    else decodeVarintLoop rest acc2 (shift + 7) (i + 1)

/-- Go `decodeVarint`: returns the value and the number of bytes consumed,
`(0, 0)` on malformed input. -/
def decodeVarint (data : List Nat) : Nat × Nat := decodeVarintLoop data 0 0 0

example : encodeVarint 0 = [0] := by decide
example : decodeVarint (encodeVarint 300) = (300, 2) := by decide
example : decodeVarint (encodeVarint 1073741824) = (1073741824, 5) := by decide
example : decodeVarint (encodeVarint 9223372036854775808) = (9223372036854775808, 10) := by decide

/-! ### Varint round-trip -/

theorem lor_eq_add_of_lt {a s : Nat} (m : Nat) (h : a < 2 ^ s) :
    a ||| m <<< s = a + m * 2 ^ s := by
  calc a ||| m <<< s = m * 2 ^ s ||| a := by rw [Nat.lor_comm, Nat.shiftLeft_eq]
    _ = 2 ^ s * m ||| a := by rw [Nat.mul_comm]
    _ = 2 ^ s * m + a := (Nat.mul_add_lt_is_or h m).symm
    _ = a + m * 2 ^ s := by ring

theorem and_7f_eq_mod (n : Nat) : n &&& 0x7F = n % 128 := by
  have h := Nat.and_pow_two_sub_one_eq_mod n 7
  norm_num at h
  exact h

theorem varintChunksF_zero (f : Nat) : varintChunksF f 0 = [] := by
  cases f <;> simp [varintChunksF]

theorem decodeVarintLoop_chunks (f : Nat) :
    ∀ n acc shift i : Nat, 0 < n → n ≤ f → acc < 2 ^ shift → n < 2 ^ (64 - shift) →
      decodeVarintLoop (varintChunksF f n) acc shift i
        = (acc + n * 2 ^ shift, i + (varintChunksF f n).length) := by
  induction f with
  | zero => intro n _ _ _ hn hf _ _; omega
  | succ f ih =>
    intro n acc shift i hn hf hacc hbound
    have hshift64 : shift ≤ 64 := by
      by_contra hc
      rw [Nat.sub_eq_zero_of_le (by omega : 64 ≤ shift), pow_zero] at hbound
      omega
    have hmul : n * 2 ^ shift < 2 ^ 64 := by
      calc n * 2 ^ shift < 2 ^ (64 - shift) * 2 ^ shift :=
            Nat.mul_lt_mul_of_lt_of_le hbound (Nat.le_refl _) (Nat.pos_pow_of_pos _ (by omega))
        _ = 2 ^ (64 - shift + shift) := (Nat.pow_add 2 _ _).symm
        _ ≤ 2 ^ 64 := Nat.pow_le_pow_right (by omega) (by omega)
    have hmodshift : ∀ a : Nat, a ≤ n → a <<< shift % 18446744073709551616 = a <<< shift := by
      intro a ha
      rw [Nat.shiftLeft_eq]
      exact Nat.mod_eq_of_lt (lt_of_le_of_lt (Nat.mul_le_mul_right _ ha) (by exact hmul))
    rw [varintChunksF, if_neg (by omega)]
    by_cases hbig : n / 128 > 0
    · -- a continuation byte followed by the chunks of `n / 128`
      have h128le : 128 ≤ n := by
        rcases Nat.lt_or_ge n 128 with h | h
        · rw [Nat.div_eq_of_lt h] at hbig; omega
        · exact h
      have hs7 : shift + 7 < 64 := by
        by_contra hc
        have h1 : (2 : Nat) ^ (64 - shift) ≤ 2 ^ 7 := Nat.pow_le_pow_right (by omega) (by omega)
        norm_num at h1
        omega
      have hbyte : (n &&& 0x7F) ||| 0x80 = n % 128 + 128 := by
        have h1 : (n &&& 0x7F) ||| 1 <<< 7 = (n &&& 0x7F) + 1 * 2 ^ 7 :=
          lor_eq_add_of_lt 1 (by rw [and_7f_eq_mod]; omega)
        rw [and_7f_eq_mod] at h1
        norm_num at h1
        rw [and_7f_eq_mod]
        exact h1
      rw [if_pos hbig, hbyte]
      have hband : (n % 128 + 128) &&& 0x7F = n % 128 := by rw [and_7f_eq_mod]; omega
      have hacc2 : acc ||| ((n % 128 + 128) &&& 0x7F) <<< shift % 18446744073709551616
          = acc + (n % 128) * 2 ^ shift := by
        rw [hband, hmodshift (n % 128) (Nat.mod_le n 128), lor_eq_add_of_lt _ hacc]
      simp only [decodeVarintLoop, hacc2, if_neg (by omega : ¬ n % 128 + 128 < 0x80),
        if_neg (by omega : ¬ shift + 7 ≥ 64)]
      have hih := ih (n / 128) (acc + (n % 128) * 2 ^ shift) (shift + 7) (i + 1) hbig
        (by have := Nat.div_lt_self (by omega : 0 < n) (by omega : 1 < 128); omega)
        (by
          calc acc + (n % 128) * 2 ^ shift
              < 2 ^ shift + (n % 128) * 2 ^ shift := by omega
            _ ≤ 2 ^ shift + 127 * 2 ^ shift := by
                have := Nat.mul_le_mul_right (2 ^ shift) (by omega : n % 128 ≤ 127)
                omega
            _ = 2 ^ shift * 2 ^ 7 := by rw [show (2 : Nat) ^ 7 = 128 by norm_num]; ring
            _ = 2 ^ (shift + 7) := (Nat.pow_add 2 shift 7).symm)
        (by
          rw [Nat.div_lt_iff_lt_mul (by norm_num : (0 : Nat) < 128)]
          have heq : 2 ^ (64 - (shift + 7)) * 128 = 2 ^ (64 - shift) := by
            rw [show (128 : Nat) = 2 ^ 7 by norm_num, ← Nat.pow_add]
            congr 1
            omega
          rw [heq]
          exact hbound)
      rw [hih]
      have hsplit : n % 128 + 128 * (n / 128) = n := Nat.mod_add_div n 128
      rw [Prod.mk.injEq]
      refine ⟨?_, ?_⟩
      · rw [Nat.pow_add, show (2 : Nat) ^ 7 = 128 by norm_num]
        conv_rhs => rw [← hsplit]
        ring
      · simp only [List.length_cons]
        omega
    · -- final byte: `n < 128`, single chunk
      have hsmall : n < 128 := by
        rcases Nat.lt_or_ge n 128 with h | h
        · exact h
        · exact absurd (Nat.div_pos h (by omega)) hbig
      have hzero : n / 128 = 0 := Nat.div_eq_of_lt hsmall
      rw [if_neg hbig, hzero, varintChunksF_zero]
      have hband : n &&& 0x7F = n := by rw [and_7f_eq_mod]; omega
      rw [hband]
      have hacc2 : acc ||| (n &&& 0x7F) <<< shift % 18446744073709551616
          = acc + n * 2 ^ shift := by
        rw [hband, hmodshift n (Nat.le_refl n), lor_eq_add_of_lt _ hacc]
      simp only [decodeVarintLoop, hacc2, if_pos (by omega : n < 0x80),
        List.length_cons, List.length_nil]

/-- C4.  For every uint64 value `n`, `decodeVarint (encodeVarint n)` returns the
pair `(n, (encodeVarint n).length)`; `encodeVarint 0` is the single byte `0x00`;
and the encodings of `1`, `300`, `2^30` and `2^63` span 1, 2, 5 and 10 bytes. -/
theorem varint_roundtrip :
    (∀ n : Nat, n < 18446744073709551616 →
        decodeVarint (encodeVarint n) = (n, (encodeVarint n).length))
    ∧ encodeVarint 0 = [0]
    ∧ (encodeVarint 1).length = 1
    ∧ (encodeVarint 300).length = 2
    ∧ (encodeVarint 1073741824).length = 5
    ∧ (encodeVarint 9223372036854775808).length = 10 := by
  refine ⟨?_, by decide, by decide, by decide, by decide, by decide⟩
  intro n hn
  by_cases h0 : n = 0
  · subst h0; decide
  · rw [encodeVarint, if_neg h0, decodeVarint]
    have h := decodeVarintLoop_chunks n n 0 0 0 (by omega) (Nat.le_refl n) (by norm_num)
      (by simpa using hn)
    simpa using h

/-- Witness for C4: the round-trip theorem applied at concrete inputs whose
encodings span 2 and 10 bytes. -/
theorem varint_roundtrip_witness :
    decodeVarint (encodeVarint 300) = (300, (encodeVarint 300).length)
    ∧ decodeVarint (encodeVarint 9223372036854775808)
        = (9223372036854775808, (encodeVarint 9223372036854775808).length) :=
  ⟨varint_roundtrip.1 300 (by norm_num),
   varint_roundtrip.1 9223372036854775808 (by norm_num)⟩

/-! ## Protobuf subset (`internal/core/qrcode.go`) -/

/-- Go `encodeTag`: a protobuf field tag, `fieldNum <<< 3 ||| wireType`. -/
def encodeTag (fieldNum wireType : Nat) : List Nat :=
  encodeVarint (fieldNum <<< 3 ||| wireType)

/-- Go `pbEncodeBytes`: a length-delimited (wire type 2) field; empty data
encodes to nothing. -/
def pbEncodeBytes (fieldNum : Nat) (data : List Nat) : List Nat :=
  if data.length = 0 then []
  else encodeTag fieldNum 2 ++ encodeVarint data.length ++ data

/-- Go `EncodeClientHello`: the ephemeral key as field 1 of the inner
ClientHello, wrapped as field 2 of the HandshakeMessage. -/
def EncodeClientHello (ephemeral : List Nat) : List Nat :=
  pbEncodeBytes 2 (pbEncodeBytes 1 ephemeral)

/-- Go `EncodeClientFinish`: static key as field 1 and optional payload as
field 2 of the inner ClientFinish, wrapped as field 4. -/
def EncodeClientFinish (staticKey payload : List Nat) : List Nat :=
  pbEncodeBytes 4 (pbEncodeBytes 1 staticKey ++
    (if payload.length > 0 then pbEncodeBytes 2 payload else []))

/-- The scan loop of Go `findField` (fuel-indexed; every iteration consumes at
least one byte, so fuel `≥ length + 1` always suffices).  `none` stands for
both Go error results (`ErrInvalidProtobuf`, `ErrFieldNotFound`), which every
caller treats alike. -/
def findFieldF : Nat → List Nat → Nat → Option (List Nat)
  | 0, _, _ => none
  | _ + 1, [], _ => none
  | fuel + 1, data@(_ :: _), target =>
    let tn := decodeVarint data
    if tn.2 = 0 then none
    else
      let rest := data.drop tn.2
      let fieldNum := tn.1 >>> 3
      let wireType := tn.1 &&& 7
      if wireType = 0 then
        let vn := decodeVarint rest
        if vn.2 = 0 then none else findFieldF fuel (rest.drop vn.2) target
      else if wireType = 1 then findFieldF fuel (rest.drop 8) target
      else if wireType = 5 then findFieldF fuel (rest.drop 4) target
      else if wireType = 2 then
        let ln := decodeVarint rest
        if ln.2 = 0 then none
        else
          let rest2 := rest.drop ln.2
          if ln.1 > rest2.length then none
          else if fieldNum = target then some (rest2.take ln.1)
          else findFieldF fuel (rest2.drop ln.1) target
      else none

/-- Go `findField`: scan protobuf data for a length-delimited field. -/
def findField (data : List Nat) (target : Nat) : Option (List Nat) :=
  findFieldF (data.length + 1) data target

/-- Go `ServerHelloData`. -/
structure ServerHelloData where
  ephemeral : List Nat
  staticBlob : List Nat
  payload : List Nat
deriving DecidableEq, Repr

/-- Go `DecodeServerHello` (which never returns an error): find field 3, fall
back to treating the whole input as a bare ServerHello, and finally fall back
to raw bytes (first 32 = ephemeral, rest = static). -/
def DecodeServerHello (data : List Nat) : ServerHelloData :=
  let shBytes := match findField data 3 with
    | some b => b
    | none => data
  let eph := (findField shBytes 1).getD []
  let st := (findField shBytes 2).getD []
  let pl := (findField shBytes 3).getD []
  if eph.length = 0 ∧ data.length ≥ 32 then
    { ephemeral := data.take 32, staticBlob := data.drop 32, payload := pl }
  else
    { ephemeral := eph, staticBlob := st, payload := pl }

/-! ## Noise engine (`internal/core/noise.go`) -/

/-- The Noise protocol name constant: `"Noise_XX_25519_AESGCM_SHA256"` padded
with four zero bytes (Go `NoiseMode`). -/
def noiseModeBytes : List Nat := strBytes "Noise_XX_25519_AESGCM_SHA256\x00\x00\x00\x00"

/-- The protocol header `"WA" + version 6 + dictionary version 3`
(Go `NoiseHeader`). -/
def noiseHeaderBytes : List Nat := strBytes "WA\x06\x03"

/-- The external cryptographic primitives the Noise handler calls: AES-256-GCM
seal and open (`key → iv → plaintext/ciphertext → aad → …`), X25519
(`curve25519.X25519`, which can fail on low-order points), and the 64-byte
HKDF-SHA256 read (`ikm → salt → 64 bytes`).  The handler is modelled for an
arbitrary choice of these functions. -/
structure CryptoPrims where
  aeadSeal : List Nat → List Nat → List Nat → List Nat → List Nat
  aeadOpen : List Nat → List Nat → List Nat → List Nat → Option (List Nat)
  dhX : List Nat → List Nat → Option (List Nat)
  hkdf64 : List Nat → List Nat → List Nat

/-- The mutable fields of Go `NoiseHandler`. -/
structure NoiseState where
  ephemeralPrivate : List Nat
  ephemeralPublic : List Nat
  staticPrivate : List Nat
  staticPublic : List Nat
  serverEphemeral : List Nat
  hash : List Nat
  salt : List Nat
  encKey : List Nat
  decKey : List Nat
  readCounter : Nat
  writeCounter : Nat
  isFinished : Bool
deriving DecidableEq, Repr

/-- Go `authenticate`: mix data into the running hash, unless finished. -/
def authenticate (s : NoiseState) (data : List Nat) : NoiseState :=
  if s.isFinished then s else { s with hash := sha256 (s.hash ++ data) }

/-- Go `generateIV`: a 12-byte IV, 8 zero bytes then the big-endian counter. -/
def generateIV (counter : Nat) : List Nat :=
  List.replicate 8 0 ++ be32 counter

/-- Go `initializeState` before its two `authenticate` calls: the hash is the
protocol-name bytes themselves when they are exactly 32 bytes long (which they
are), and only otherwise their SHA-256; `ck = k = h`, counters zero. -/
def initStateBase (ePriv ePub sPriv sPub : List Nat) : NoiseState :=
  let h := if noiseModeBytes.length = 32 then noiseModeBytes else sha256 noiseModeBytes
  { ephemeralPrivate := ePriv
    ephemeralPublic := ePub
    staticPrivate := sPriv
    staticPublic := sPub
    serverEphemeral := []
    hash := h
    salt := h
    encKey := h
    decKey := h
    readCounter := 0
    writeCounter := 0
    isFinished := false }

/-- Go `initializeState`: the base state, then the protocol header and the
client ephemeral public key mixed into the hash. -/
def initState (ePriv ePub sPriv sPub : List Nat) : NoiseState :=
  authenticate (authenticate (initStateBase ePriv ePub sPriv sPub) noiseHeaderBytes) ePub

/-- Go `encrypt` (private): seal with the current write counter as IV and the
running hash as AAD, bump the counter (uint32), then mix the ciphertext into
the hash. -/
def encrypt (C : CryptoPrims) (s : NoiseState) (plaintext : List Nat) :
    List Nat × NoiseState :=
  let iv := generateIV s.writeCounter
  let ciphertext := C.aeadSeal s.encKey iv plaintext s.hash
  let s1 := { s with writeCounter := (s.writeCounter + 1) % 4294967296 }
  (ciphertext, authenticate s1 ciphertext)

/-- Go `decrypt` (private): before the split the write counter is used (and
bumped) for the IV, after the split the read counter; on AEAD failure the
error is returned with the counter already bumped; on success the ciphertext
is mixed into the hash. -/
def decrypt (C : CryptoPrims) (s : NoiseState) (ciphertext : List Nat) :
    Option (List Nat) × NoiseState :=
  let ivs : List Nat × NoiseState :=
    if s.isFinished then
      (generateIV s.readCounter, { s with readCounter := (s.readCounter + 1) % 4294967296 })
    else
      (generateIV s.writeCounter, { s with writeCounter := (s.writeCounter + 1) % 4294967296 })
  match C.aeadOpen s.decKey ivs.1 ciphertext s.hash with
  | none => (none, ivs.2)
  | some plaintext => (some plaintext, authenticate ivs.2 ciphertext)

/-- Go `mixIntoKey`: HKDF with the current salt, split 32/32 into the new salt
and the new (shared) encryption/decryption key; both counters reset. -/
def mixIntoKey (C : CryptoPrims) (s : NoiseState) (data : List Nat) : NoiseState :=
  let key := C.hkdf64 data s.salt
  { s with
    salt := key.take 32
    encKey := key.drop 32
    decKey := key.drop 32
    readCounter := 0
    writeCounter := 0 }

/-- Go `finishInit` (the split): HKDF with empty input keying material, the
first half becoming the write key and the second the read key; the hash is
discarded, counters reset, and the handshake marked finished. -/
def finishInit (C : CryptoPrims) (s : NoiseState) : NoiseState :=
  let key := C.hkdf64 [] s.salt
  { s with
    encKey := key.take 32
    decKey := key.drop 32
    hash := []
    readCounter := 0
    writeCounter := 0
    isFinished := true }

/-- Go `dh`: both keys must be 32 bytes, then X25519 (which may itself fail). -/
def dhCall (C : CryptoPrims) (priv pub : List Nat) : Option (List Nat) :=
  if priv.length ≠ 32 ∨ pub.length ≠ 32 then none else C.dhX priv pub

/-- Go `GenerateClientHello`: the literal `WA\x06\x03` header, a 3-byte
big-endian length, then the protobuf ClientHello. -/
def GenerateClientHello (ephPub : List Nat) : List Nat :=
  let proto := EncodeClientHello ephPub
  noiseHeaderBytes ++
    [proto.length >>> 16 % 256, proto.length % 65536 / 256, proto.length % 65536 % 256] ++
    proto

/-- Go `ProcessServerHello`, for arbitrary primitives: note that when the
48-byte encrypted static blob fails AEAD verification (`decrypt` returns
`none`), the `err == nil` guard merely skips the second `mixIntoKey` and the
function still returns success. -/
def ProcessServerHello (C : CryptoPrims) (s : NoiseState) (data : List Nat) :
    Except String NoiseState :=
  if data.length < 32 then .error "server hello too short"
  else
    let sh0 := DecodeServerHello data
    let sh : ServerHelloData :=
      if sh0.ephemeral.length = 32 then sh0
      else { ephemeral := data.take 32, staticBlob := data.drop 32, payload := [] }
    let s1 := authenticate { s with serverEphemeral := sh.ephemeral } sh.ephemeral
    match dhCall C s1.ephemeralPrivate sh.ephemeral with
    | none => .error "DH1 failed"
    | some shared1 =>
      let s2 := mixIntoKey C s1 shared1
      if sh.staticBlob.length ≥ 48 then
        match decrypt C s2 (sh.staticBlob.take 48) with
        | (some pt, s3) =>
          if pt.length = 32 then
            match dhCall C s3.ephemeralPrivate pt with
            | some shared2 => .ok (mixIntoKey C s3 shared2)
            | none => .ok s3
          else .ok s3
        | (none, s3) => .ok s3
      else .ok s2

/-- Go `Encrypt` (public): pass data through before the split; swallow any
encryption error by returning the input. -/
def Encrypt (C : CryptoPrims) (s : NoiseState) (data : List Nat) :
    List Nat × NoiseState :=
  if s.isFinished then encrypt C s data else (data, s)

/-- Go `Decrypt` (public): pass data through before the split; after the split
an AEAD failure is swallowed and the raw input returned. -/
def Decrypt (C : CryptoPrims) (s : NoiseState) (data : List Nat) :
    List Nat × NoiseState :=
  if s.isFinished then
    match decrypt C s data with
    | (some pt, s1) => (pt, s1)
    | (none, s1) => (data, s1)
  else (data, s)

/-- `Except.isOk` spelled out, to state results about `ProcessServerHello`. -/
def exceptOk : Except String NoiseState → Bool
  | .ok _ => true
  | .error _ => false

/-! ### Shared concrete instances used by witnesses and counterexamples -/

/-- A primitive set whose AEAD rejects every ciphertext (all tag verifications
fail), with trivially succeeding DH and HKDF. -/
def cryptoOpenFail : CryptoPrims :=
  { aeadSeal := fun _ _ _ _ => []
    aeadOpen := fun _ _ _ _ => none
    dhX := fun _ _ => some (List.replicate 32 0)
    hkdf64 := fun _ _ => List.replicate 64 0 }

/-- A freshly initialised handler state with concrete 32-byte key material. -/
def demoState : NoiseState :=
  initState (List.replicate 32 1) (List.replicate 32 2)
    (List.replicate 32 3) (List.replicate 32 4)

/-- 80 bytes that reach `ProcessServerHello`'s raw fallback: the first 32 are
taken as the server ephemeral, the remaining 48 as the encrypted static blob. -/
def tamperedServerHello : List Nat := List.replicate 80 0

/-! ### C3: the initial chaining hash -/

/-- Counterexample for C3.  Since the protocol-name constant is exactly 32
bytes long, `initializeState` installs the name bytes themselves as the
initial hash — not their SHA-256, as the claim states. -/
theorem initial_hash_not_sha256 :
    (initStateBase [] [] [] []).hash = noiseModeBytes
    ∧ (initStateBase [] [] [] []).hash ≠ sha256 noiseModeBytes := by
  constructor
  · rfl
  · decide

/-- C3 (amended).  Immediately after initialisation the chaining hash equals
the 32-byte protocol name `"Noise_XX_25519_AESGCM_SHA256\x00\x00\x00\x00"`
itself (taken verbatim because its length is exactly 32, with the SHA-256
branch reserved for other lengths), `ck = k = h` and both counters are zero;
the prologue `"WA\x06\x03"` and the client ephemeral public key are then
mixed into `h` by two MixHash steps. -/
theorem initial_state_spec (ePriv ePub sPriv sPub : List Nat) :
    (initStateBase ePriv ePub sPriv sPub).hash = noiseModeBytes
    ∧ noiseModeBytes = strBytes "Noise_XX_25519_AESGCM_SHA256" ++ [0, 0, 0, 0]
    ∧ noiseModeBytes.length = 32
    ∧ (initStateBase ePriv ePub sPriv sPub).salt = noiseModeBytes
    ∧ (initStateBase ePriv ePub sPriv sPub).encKey = noiseModeBytes
    ∧ (initStateBase ePriv ePub sPriv sPub).decKey = noiseModeBytes
    ∧ (initStateBase ePriv ePub sPriv sPub).readCounter = 0
    ∧ (initStateBase ePriv ePub sPriv sPub).writeCounter = 0
    ∧ (initState ePriv ePub sPriv sPub).hash
        = sha256 (sha256 (noiseModeBytes ++ noiseHeaderBytes) ++ ePub) := by
  have hlen : noiseModeBytes.length = 32 := by decide
  refine ⟨?_, by decide, hlen, ?_, ?_, ?_, rfl, rfl, ?_⟩ <;>
    simp [initState, initStateBase, authenticate, hlen]

/-! ### C6: nonces and counters -/

/-- The write/read-counter update every AEAD call performs (`n.writeCounter++`
on a Go `uint32`). -/
def counterStep (c : Nat) : Nat := (c + 1) % 4294967296

theorem counterStep_iterate (k : Nat) :
    ∀ c, c < 4294967296 → counterStep^[k] c = (c + k) % 4294967296 := by
  induction k with
  | zero => intro c hc; simpa using (Nat.mod_eq_of_lt hc).symm
  | succ k ih =>
    intro c hc
    rw [Function.iterate_succ_apply', ih c hc, counterStep]
    omega

/-- Counterexample for C6.  The counter is a `uint32` with no overflow check:
after 2^32 encryptions under one key the counter — and hence the AEAD nonce —
repeats, so the claim's unconditional "no two AEAD calls with that key share a
nonce" fails for call 0 and call 2^32. -/
theorem nonce_reuse_after_wraparound :
    generateIV (counterStep^[4294967296] 0) = generateIV (counterStep^[0] 0)
    ∧ (4294967296 : Nat) ≠ 0 := by
  refine ⟨?_, by norm_num⟩
  rw [counterStep_iterate 4294967296 0 (by norm_num)]
  simp

/-- C6 (amended).  Every AEAD call derives its 12-byte nonce as 8 zero bytes
followed by the 4-byte big-endian counter; `encrypt` seals with the current
write counter and hash and bumps the write counter by exactly 1 (mod 2^32),
`decrypt` after the split bumps the read counter the same way; and among the
first 2^32 AEAD calls under one key (counters start at 0 at every key change)
no two calls share a nonce.  Beyond 2^32 calls the `uint32` counter wraps. -/
theorem nonce_discipline :
    (∀ c, generateIV c = List.replicate 8 0 ++ be32 c ∧ (generateIV c).length = 12)
    ∧ (∀ (C : CryptoPrims) (s : NoiseState) (pt : List Nat),
        (encrypt C s pt).1 = C.aeadSeal s.encKey (generateIV s.writeCounter) pt s.hash
        ∧ (encrypt C s pt).2.writeCounter = counterStep s.writeCounter)
    ∧ (∀ (C : CryptoPrims) (s : NoiseState) (ct : List Nat), s.isFinished = true →
        (decrypt C s ct).2.readCounter = counterStep s.readCounter)
    ∧ (∀ i j, i < 4294967296 → j < 4294967296 → i ≠ j →
        generateIV (counterStep^[i] 0) ≠ generateIV (counterStep^[j] 0)) := by
  refine ⟨fun c => ⟨rfl, by simp [generateIV, be32]⟩,
    fun C s pt => ⟨rfl, by cases hf : s.isFinished <;>
      simp [encrypt, authenticate, counterStep, hf]⟩, ?_, ?_⟩
  · intro C s ct h
    rcases hopen : C.aeadOpen s.decKey (generateIV s.readCounter) ct s.hash with _ | pt <;>
      simp [decrypt, h, hopen, authenticate, counterStep]
  · intro i j hi hj hne h
    rw [counterStep_iterate i 0 (by norm_num), counterStep_iterate j 0 (by norm_num)] at h
    simp [generateIV, be32] at h
    omega

/-- Witness for C6 (amended): the nonce/counter facts applied at a concrete
state, and distinct nonces for calls 0 and 1. -/
theorem nonce_discipline_witness :
    (encrypt cryptoOpenFail demoState []).2.writeCounter = counterStep demoState.writeCounter
    ∧ (decrypt cryptoOpenFail (finishInit cryptoOpenFail demoState) []).2.readCounter
        = counterStep (finishInit cryptoOpenFail demoState).readCounter
    ∧ generateIV (counterStep^[0] 0) ≠ generateIV (counterStep^[1] 0) :=
  ⟨(nonce_discipline.2.1 cryptoOpenFail demoState []).2,
   nonce_discipline.2.2.1 cryptoOpenFail (finishInit cryptoOpenFail demoState) [] rfl,
   nonce_discipline.2.2.2 0 1 (by norm_num) (by norm_num) (by norm_num)⟩

/-! ### C2: AEAD failure during the handshake -/

/-- C2 (code bug).  With primitives whose AEAD rejects every ciphertext —
exactly the situation after any bit-flip in the encrypted server static blob —
`ProcessServerHello` still returns success: the `err == nil` guard around the
decrypted static key silently skips the second key mix instead of aborting,
and no `HandshakeAuthFailure`-like error exists anywhere in the handler. -/
theorem processServerHello_ok_despite_auth_failure :
    (∀ key iv ct aad, cryptoOpenFail.aeadOpen key iv ct aad = none)
    ∧ exceptOk (ProcessServerHello cryptoOpenFail demoState tamperedServerHello) = true :=
  ⟨fun _ _ _ _ => rfl, by rfl⟩

/-! ### C10: the public Decrypt method -/

/-- C10.  The public `Decrypt` returns its input unchanged (and can report no
error — it has no error result at all) whenever the handshake is not finished,
and likewise delivers the raw ciphertext as if it were plaintext whenever the
handshake is finished but AEAD authentication fails. -/
theorem decrypt_passthrough (C : CryptoPrims) (s : NoiseState) (data : List Nat) :
    (s.isFinished = false → Decrypt C s data = (data, s))
    ∧ (s.isFinished = true →
        C.aeadOpen s.decKey (generateIV s.readCounter) data s.hash = none →
        (Decrypt C s data).1 = data) := by
  constructor
  · intro h
    simp [Decrypt, h]
  · intro h hopen
    simp [Decrypt, decrypt, h, hopen]

/-- Witness for C10: pass-through before the split, and pass-through of a
ciphertext rejected by the AEAD after the split. -/
theorem decrypt_passthrough_witness :
    Decrypt cryptoOpenFail demoState [7] = ([7], demoState)
    ∧ (Decrypt cryptoOpenFail (finishInit cryptoOpenFail demoState) [9]).1 = [9] :=
  ⟨(decrypt_passthrough cryptoOpenFail demoState [7]).1 rfl,
   (decrypt_passthrough cryptoOpenFail (finishInit cryptoOpenFail demoState) [9]).2 rfl rfl⟩

/-! ### C7: the ClientHello frame -/

/-- C7.  For a 32-byte ephemeral key, `GenerateClientHello` returns exactly the
4-byte header `"WA\x06\x03"`, then the 3-byte big-endian length `[0, 0, 36]`
of the following 36-byte protobuf payload, then the HandshakeMessage
`[0x12, 34] ++ [0x0A, 32] ++ key`: tag `0x12 = (2 <<< 3) ||| 2` opens the
length-delimited ClientHello (field 2) and tag `0x0A = (1 <<< 3) ||| 2` opens
the length-delimited ephemeral key (field 1) inside it, as the repository's
own `findField` confirms on both levels. -/
theorem clienthello_frame (pub : List Nat) (h : pub.length = 32) :
    GenerateClientHello pub
      = noiseHeaderBytes ++ [0, 0, 36] ++ EncodeClientHello pub
    ∧ EncodeClientHello pub = [18, 34, 10, 32] ++ pub
    ∧ (EncodeClientHello pub).length = 36
    ∧ encodeTag 2 2 = [18] ∧ encodeTag 1 2 = [10]
    ∧ findField (EncodeClientHello pub) 2 = some ([10, 32] ++ pub)
    ∧ findField ([10, 32] ++ pub) 1 = some pub := by
  have et1 : encodeTag 1 2 = [10] := rfl
  have et2 : encodeTag 2 2 = [18] := rfl
  have e32 : encodeVarint 32 = [32] := rfl
  have e34 : encodeVarint 34 = [34] := rfl
  have hinner : pbEncodeBytes 1 pub = [10, 32] ++ pub := by
    simp [pbEncodeBytes, h, et1, e32]
  have houter : EncodeClientHello pub = [18, 34, 10, 32] ++ pub := by
    rw [EncodeClientHello, hinner]
    have hlen : (([10, 32] : List Nat) ++ pub).length = 34 := by simp [h]
    simp [pbEncodeBytes, hlen, et2, e34, h]
  have hlen36 : (EncodeClientHello pub).length = 36 := by simp [houter, h]
  refine ⟨?_, houter, hlen36, et2, et1, ?_, ?_⟩
  · rw [GenerateClientHello, hlen36]
    simp [show (36 >>> 16 % 256 : Nat) = 0 from rfl, show (36 % 65536 / 256 : Nat) = 0 from rfl,
      show (36 % 65536 % 256 : Nat) = 36 from rfl]
  · rw [houter]
    have htake : ([10, 32] ++ pub).take 34 = [10, 32] ++ pub := by
      have h34 : (([10, 32] : List Nat) ++ pub).length = 34 := by simp [h]
      rw [← h34, List.take_length]
    simp +decide [findField, findFieldF, decodeVarint, decodeVarintLoop, h, htake]
  · have htake32 : pub.take 32 = pub := by rw [← h, List.take_length]
    simp +decide [findField, findFieldF, decodeVarint, decodeVarintLoop, h, htake32]

/-- Witness for C7: the frame shape at a concrete 32-byte key. -/
theorem clienthello_frame_witness :
    GenerateClientHello (List.replicate 32 9)
      = noiseHeaderBytes ++ [0, 0, 36] ++ EncodeClientHello (List.replicate 32 9)
    ∧ EncodeClientHello (List.replicate 32 9) = [18, 34, 10, 32] ++ List.replicate 32 9 :=
  ⟨(clienthello_frame (List.replicate 32 9) (by decide)).1,
   (clienthello_frame (List.replicate 32 9) (by decide)).2.1⟩

/-! ## QR pairing string and base64 (`generateQRData` / `encodeBase64`) -/

/-- The standard (non-URL-safe) base64 alphabet used by `encodeBase64`. -/
def b64Alphabet : List Char :=
  "ABCDEFGHIJKLMNOPQRSTUVWXYZabcdefghijklmnopqrstuvwxyz0123456789+/".data

/-- Indexing into the base64 alphabet (Go `b64[i]`; indices are always `< 64`). -/
def b64char (i : Nat) : Char := b64Alphabet.getD i 'A'

/-- Go `encodeBase64`: hand-rolled base64, three input bytes at a time. -/
def encodeBase64 : List Nat → List Char
  | a :: b :: c :: rest =>
    let n := (a <<< 16) ||| (b <<< 8) ||| c
    b64char (n >>> 18 &&& 0x3F) :: b64char (n >>> 12 &&& 0x3F) ::
      b64char (n >>> 6 &&& 0x3F) :: b64char (n &&& 0x3F) :: encodeBase64 rest
  | [a, b] =>
    let n := (a <<< 16) ||| (b <<< 8)
    [b64char (n >>> 18 &&& 0x3F), b64char (n >>> 12 &&& 0x3F), b64char (n >>> 6 &&& 0x3F), '=']
  | [a] =>
    let n := a <<< 16
    [b64char (n >>> 18 &&& 0x3F), b64char (n >>> 12 &&& 0x3F), '=', '=']
  | [] => []

/-- The 6-bit digits of zero-padded 24-bit groups, per the RFC's arithmetic
reading (each group of three bytes is a 24-bit integer written as four base-64
digits, most significant first). -/
def b64SpecDigits : List Nat → List Char
  | x :: y :: z :: rest =>
    let g := x * 65536 + y * 256 + z
    b64char (g / 262144 % 64) :: b64char (g / 4096 % 64) ::
      b64char (g / 64 % 64) :: b64char (g % 64) :: b64SpecDigits rest
  | _ => []

/-- Reference definition of RFC 4648 §4 standard base64, written from the
spec's words ("standard (not URL-safe) base64"): pad the input with zero bytes
to a multiple of three, emit the base-64 digits of each 24-bit group, then
replace the final digits that cover only padding with `'='`. -/
def base64Spec (data : List Nat) : List Char :=
  let pad := (3 - data.length % 3) % 3
  let digits := b64SpecDigits (data ++ List.replicate pad 0)
  digits.take (digits.length - pad) ++ List.replicate pad '='

/-- Go `generateQRData`, with the random pairing reference and the session
identifier (both produced outside the function) as parameters. -/
def generateQRData (ref : List Char) (pubKey : List Nat) (sessionID : List Char) : List Char :=
  "2@".data ++ ref ++ ",".data ++ encodeBase64 pubKey ++ ",".data ++ sessionID

theorem shiftRight_and_3f (n k : Nat) : n >>> k &&& 0x3F = n / 2 ^ k % 64 := by
  have h := Nat.and_pow_two_sub_one_eq_mod (n >>> k) 6
  norm_num at h
  rw [h, Nat.shiftRight_eq_div_pow]

theorem b64_group2 {a b : Nat} (hb : b < 256) :
    (a <<< 16) ||| (b <<< 8) = a * 65536 + b * 256 := by
  have hb2 : b * 2 ^ 8 < 2 ^ 16 := by omega
  rw [Nat.shiftLeft_eq, Nat.shiftLeft_eq, Nat.mul_comm a (2 ^ 16),
    ← Nat.mul_add_lt_is_or hb2 a]
  ring

theorem b64_group3 {a b c : Nat} (hb : b < 256) (hc : c < 256) :
    (a <<< 16) ||| (b <<< 8) ||| c = a * 65536 + b * 256 + c := by
  have hc2 : c < 2 ^ 8 := by omega
  rw [b64_group2 hb, show a * 65536 + b * 256 = 2 ^ 8 * (2 ^ 8 * a + b) by ring,
    ← Nat.mul_add_lt_is_or hc2]

theorem d18_eq (n : Nat) : n >>> 18 &&& 0x3F = n / 262144 % 64 := by
  have h := shiftRight_and_3f n 18
  norm_num at h
  exact h

theorem d12_eq (n : Nat) : n >>> 12 &&& 0x3F = n / 4096 % 64 := by
  have h := shiftRight_and_3f n 12
  norm_num at h
  exact h

theorem d6_eq (n : Nat) : n >>> 6 &&& 0x3F = n / 64 % 64 := by
  have h := shiftRight_and_3f n 6
  norm_num at h
  exact h

theorem d0_eq (n : Nat) : n &&& 0x3F = n % 64 := by
  have h := Nat.and_pow_two_sub_one_eq_mod n 6
  norm_num at h
  exact h

theorem b64SpecDigits_length (l : List Nat) :
    (b64SpecDigits l).length = 4 * (l.length / 3) := by
  induction l using b64SpecDigits.induct with
  | case1 x y z rest ih =>
    simp [b64SpecDigits, ih]
    omega
  | case2 l h =>
    match l, h with
    | [], _ => simp [b64SpecDigits]
    | [x], _ => simp [b64SpecDigits]
    | [x, y], _ => simp [b64SpecDigits]
    | x :: y :: z :: rest, h => exact absurd rfl (h x y z rest)

theorem base64Spec_cons3 (a b c : Nat) (rest : List Nat) :
    base64Spec (a :: b :: c :: rest)
      = b64char ((a * 65536 + b * 256 + c) / 262144 % 64) ::
        b64char ((a * 65536 + b * 256 + c) / 4096 % 64) ::
        b64char ((a * 65536 + b * 256 + c) / 64 % 64) ::
        b64char ((a * 65536 + b * 256 + c) % 64) :: base64Spec rest := by
  have hpadeq : (3 - (rest.length + 1 + 1 + 1) % 3) % 3 = (3 - rest.length % 3) % 3 := by
    omega
  have hpD : (3 - rest.length % 3) % 3
      ≤ (b64SpecDigits (rest ++ List.replicate ((3 - rest.length % 3) % 3) 0)).length := by
    rw [b64SpecDigits_length, List.length_append, List.length_replicate]
    rcases rest with _ | ⟨r, rs⟩
    · simp
    · simp only [List.length_cons]
      omega
  simp only [base64Spec, hpadeq, List.cons_append, b64SpecDigits, List.length_cons,
    List.append_eq]
  rw [show (b64SpecDigits (rest ++ List.replicate ((3 - rest.length % 3) % 3) 0)).length
        + 1 + 1 + 1 + 1 - (3 - rest.length % 3) % 3
      = (b64SpecDigits (rest ++ List.replicate ((3 - rest.length % 3) % 3) 0)).length
        - (3 - rest.length % 3) % 3 + 1 + 1 + 1 + 1 from by omega]
  simp only [List.take_succ_cons, List.cons_append]

theorem b64char_lt_ne : ∀ j, j < 64 → b64char j ≠ '=' := by decide

theorem b64char_and_ne (m : Nat) : (b64char (m &&& 0x3F) == '=') = false := by
  have hlt : m &&& 0x3F < 64 := by
    have := Nat.and_le_right (n := m) (m := 0x3F)
    omega
  exact beq_eq_false_iff_ne.mpr (b64char_lt_ne _ hlt)

theorem encodeBase64_length (data : List Nat) :
    (encodeBase64 data).length = (data.length + 2) / 3 * 4 := by
  induction data using encodeBase64.induct with
  | case1 a b c rest ih =>
    simp [encodeBase64, ih]
    omega
  | case2 a b => simp [encodeBase64]
  | case3 a => simp [encodeBase64]
  | case4 => simp [encodeBase64]

theorem encodeBase64_count (data : List Nat) :
    (encodeBase64 data).count '=' = (3 - data.length % 3) % 3 := by
  induction data using encodeBase64.induct with
  | case1 a b c rest ih =>
    simp [encodeBase64, List.count_cons, b64char_and_ne, ih]
    omega
  | case2 a b => simp [encodeBase64, List.count_cons, b64char_and_ne]
  | case3 a => simp [encodeBase64, List.count_cons, b64char_and_ne]
  | case4 => simp [encodeBase64]

theorem encodeBase64_eq_spec : ∀ data : List Nat, (∀ x ∈ data, x < 256) →
    encodeBase64 data = base64Spec data := by
  intro data
  induction data using encodeBase64.induct with
  | case1 a b c rest ih =>
    intro h
    have hb : b < 256 := h b (by simp)
    have hc : c < 256 := h c (by simp)
    rw [base64Spec_cons3, ← ih (fun x hx => h x (by simp [hx]))]
    simp only [encodeBase64, b64_group3 hb hc, Nat.shiftRight_eq_div_pow, d0_eq]
  | case2 a b =>
    intro h
    have hb : b < 256 := h b (by simp)
    simp only [encodeBase64, base64Spec, b64SpecDigits, List.length_cons, List.length_nil,
      b64_group2 hb, Nat.shiftRight_eq_div_pow, d0_eq, List.cons_append, List.nil_append]
    norm_num [List.replicate, b64SpecDigits]
  | case3 a =>
    intro _
    simp only [encodeBase64, base64Spec, b64SpecDigits, List.length_cons, List.length_nil,
      Nat.shiftLeft_eq, Nat.shiftRight_eq_div_pow, d0_eq, List.cons_append, List.nil_append]
    norm_num [List.replicate, b64SpecDigits]
  | case4 =>
    intro _
    decide

/-- C8.  `generateQRData` produces exactly `"2@<ref>,<b64>,<session_id>"`,
where `<b64>` is the hand-rolled `encodeBase64` of the key; `encodeBase64`
agrees with the RFC 4648 standard (non-URL-safe) base64 reference definition
on every byte string; and for a 32-byte key the base64 text is 44 characters
long and contains exactly one `'='` (necessarily trailing, by the reference
definition's shape). -/
theorem qr_pairing_string :
    (∀ data : List Nat, (∀ x ∈ data, x < 256) → encodeBase64 data = base64Spec data)
    ∧ (∀ key : List Nat, key.length = 32 →
        (encodeBase64 key).length = 44 ∧ (encodeBase64 key).count '=' = 1)
    ∧ (∀ (ref : List Char) (key : List Nat) (sid : List Char),
        generateQRData ref key sid
          = "2@".data ++ ref ++ ",".data ++ encodeBase64 key ++ ",".data ++ sid) := by
  refine ⟨encodeBase64_eq_spec, ?_, fun ref key sid => rfl⟩
  intro key h
  constructor
  · rw [encodeBase64_length, h]
  · rw [encodeBase64_count, h]

/-- Witness for C8: a concrete 32-byte key, with the hand-rolled and reference
encoders evaluated and equal, length 44 and a single `'='`. -/
theorem qr_pairing_string_witness :
    encodeBase64 (List.replicate 32 251) = base64Spec (List.replicate 32 251)
    ∧ (encodeBase64 (List.replicate 32 251)).length = 44
    ∧ (encodeBase64 (List.replicate 32 251)).count '=' = 1 :=
  ⟨qr_pairing_string.1 (List.replicate 32 251) (by decide),
   (qr_pairing_string.2.1 (List.replicate 32 251) (by decide)).1,
   (qr_pairing_string.2.1 (List.replicate 32 251) (by decide)).2⟩

/-! ## Binary-node codec (`internal/core`, binary-node file) -/

/-- The fixed token dictionary (`tagDictionary`), transcribed verbatim from the
source: 48 empty slots, then 329 - 48 non-empty tokens. -/
def tagDictionary : List (List Nat) :=
  ([   "", "", "", "", "", "", "", "", "", "",
   "", "", "", "", "", "", "", "", "", "",
   "", "", "", "", "", "", "", "", "", "",
   "", "", "", "", "", "", "", "", "", "",
   "", "", "", "", "", "", "", "", "1", "2",
   "3", "4", "5", "6", "7", "8", "9", "10", "11", "12",
   "13", "14", "15", "16", "17", "18", "19", "20", "21", "22",
   "23", "24", "25", "26", "27", "28", "29", "30", "account", "ack",
   "action", "active", "add", "after", "all", "allow", "and", "android", "announce", "archive",
   "available", "battery", "before", "block", "body", "broadcast", "call", "call-creator", "call-id", "cancel",
   "caption", "chat", "child", "clear", "code", "composing", "config", "contact", "contacts", "count",
   "create", "creator", "decrypt", "delete", "demote", "description", "device", "devices", "disappearing", "done",
   "download", "edit", "elapsed", "encoding", "encrypt", "end", "ephemeral", "error", "event", "exit",
   "exposure", "failure", "false", "fan_out", "file", "filename", "format", "from", "full", "g.us",
   "get", "gif", "group", "groups", "hash", "height", "host", "id", "image", "in",
   "inactive", "index", "info", "interactive", "invite", "ios", "iq", "is", "item", "items",
   "jid", "keep", "key", "keyvalue", "keys", "kind", "large", "last", "leave", "limit",
   "linked", "list", "live", "location", "locked", "md", "media", "media_type", "member", "merry",
   "message", "messages", "meta", "mime", "mirror", "mms", "modify", "msg", "mute", "name",
   "network", "new", "news", "newsletter", "none", "not", "notification", "notify", "number", "of",
   "offline", "opt", "order", "out", "owner", "paid", "pairing", "participant", "participants", "paused",
   "phash", "phone", "photo", "picture", "pin", "pinned", "platform", "pn", "preview", "previous",
   "primary", "private", "promote", "props", "protocol", "push", "pushname", "query", "quit", "quote",
   "rate", "read", "reason", "receipt", "received", "recipient", "remove", "removed", "reply", "report",
   "request", "require", "reset", "resource", "result", "retry", "revoke", "s.whatsapp.net", "screen", "search",
   "sec", "secret", "seen", "selected", "self", "sender", "serial", "server", "session", "set",
   "settings", "sf", "shake", "share", "short", "side", "sig", "silent", "size", "sky",
   "slow", "smax", "smbiz", "source", "sponsor", "srcjid", "starred", "start", "status", "sticky",
   "storage", "store", "stop", "subject", "subscribe", "success", "sync", "system", "t", "tag",
   "taken", "target", "template", "terminate", "text", "thread", "ticket", "time", "timestamp", "to",
   "token", "true", "type", "unavailable", "undefined", "unique", "unknown", "unlock", "unread", "until",
   "update", "upgrade", "url", "user", "users", "v", "value", "version", "video", "voip",
   "wa", "web", "webp", "width", "write", "xmlns", "xmpp", "you", "years"] : List String).map strBytes

/-- The `for i, dictStr := range tagDictionary` loop of Go `encodeString`:
first index whose entry equals `s` and is non-empty. -/
def lookupDictFrom : Nat → List (List Nat) → List Nat → Option Nat
  | _, [], _ => none
  | i, d :: rest, s => if d = s ∧ d ≠ [] then some i else lookupDictFrom (i + 1) rest s

/-- Dictionary search over the whole token dictionary. -/
def lookupDict (s : List Nat) : Option Nat := lookupDictFrom 0 tagDictionary s

/-- Go `encodeString`: a dictionary hit is written as the single byte
`byte(i)` (truncated mod 256); otherwise a length byte `< 128` followed by the
raw bytes, or `0xFD` with a 16-bit big-endian length (`uint16` truncation). -/
def encodeString (s : List Nat) : List Nat :=
  match lookupDict s with
  | some i => [i % 256]
  | none =>
    if s.length < 128 then s.length :: s
    else 253 :: be16 (s.length % 65536) ++ s

/-- Go `encodeBytes`: a length byte for `< 256` bytes, otherwise `0xFE` with a
32-bit big-endian length (`uint32` truncation). -/
def encodeBytes (d : List Nat) : List Nat :=
  (if d.length < 256 then [d.length] else 254 :: be32 (d.length % 4294967296)) ++ d

/-- The result of Go's `reader.Read(buf)` into a `length`-byte zeroed buffer:
the available prefix, zero-padded to `length`; plus the remaining stream. -/
def readPad (length : Nat) (l : List Nat) : List Nat × List Nat :=
  (l.take length ++ List.replicate (length - (l.take length).length) 0, l.drop length)

/-- Go's `binary.Read` of a big-endian `uint16`: two bytes consumed when
available (the value stays zero on a short read, whose error is ignored). -/
def readU16 (l : List Nat) : Nat × List Nat :=
  (if 2 ≤ l.length then l.getD 0 0 * 256 + l.getD 1 0 else 0, l.drop 2)

/-- Go's `binary.Read` of a big-endian `uint32`. -/
def readU32 (l : List Nat) : Nat × List Nat :=
  (if 4 ≤ l.length then
      l.getD 0 0 * 16777216 + l.getD 1 0 * 65536 + l.getD 2 0 * 256 + l.getD 3 0
    else 0, l.drop 4)

/-- Go `decodeString`: a first byte that indexes a non-empty dictionary slot is
a token reference; otherwise it is a length (`0xFD` introducing a 16-bit
length), and that many bytes are read.  `none` is the `ReadByte` error at end
of stream. -/
def decodeString : List Nat → Option (List Nat × List Nat)
  | [] => none
  | b :: rest =>
    if b < tagDictionary.length ∧ tagDictionary.getD b [] ≠ [] then
      some (tagDictionary.getD b [], rest)
    else
      let lr := if b = 253 then readU16 rest else (b, rest)
      some (readPad lr.1 lr.2)

/-- Go `decodeBytes`: a first byte `0xFE` introduces a 32-bit length, any other
first byte is the length itself. -/
def decodeBytes : List Nat → Option (List Nat × List Nat)
  | [] => none
  | b :: rest =>
    let lr := if b = 254 then readU32 rest else (b, rest)
    some (readPad lr.1 lr.2)

mutual
/-- Go `BinaryNode`: tag, attributes, and an optional content that is a byte
string, a UTF-8 string, or a list of (possibly nil) child node pointers.  The
attribute map is carried as an ordered association list — the order in which
one Go map iteration visits it — with the pairwise-distinct keys a Go map
guarantees. -/
inductive BNode : Type where
  | mk : List Nat → List (List Nat × List Nat) → Option BContent → BNode
/-- The three shapes of `BinaryNode.Content` (`[]byte`, `string`,
`[]*BinaryNode`). -/
inductive BContent : Type where
  | bytes : List Nat → BContent
  | str : List Nat → BContent
  | kids : List (Option BNode) → BContent
end

/-- The tag of a node. -/
def BNode.tag : BNode → List Nat
  | .mk t _ _ => t

/-- The attributes of a node. -/
def BNode.attrs : BNode → List (List Nat × List Nat)
  | .mk _ a _ => a

/-- The content of a node. -/
def BNode.content : BNode → Option BContent
  | .mk _ _ c => c

/-- The attribute run of Go `encodeNode`: each key-value pair string-encoded in
iteration order. -/
def encodeAttrsList : List (List Nat × List Nat) → List Nat
  | [] => []
  | kv :: rest => encodeString kv.1 ++ encodeString kv.2 ++ encodeAttrsList rest

mutual
/-- Go `encodeNode` on a non-nil node: the descriptor byte
`byte(numAttrs <<< 1 ||| hasContent)`, the tag, the attribute run, then the
content (bytes, string, or a child-count byte followed by the children). -/
def encodeNodeCore : BNode → List Nat
  | .mk tag attrs content =>
    ((attrs.length * 2 + if content.isSome then 1 else 0) % 256) ::
      encodeString tag ++ encodeAttrsList attrs ++
      (match content with
        | none => []
        | some (.bytes d) => encodeBytes d
        | some (.str s) => encodeString s
        | some (.kids cs) => (cs.length % 256) :: encodeKids cs)
  termination_by structural n => n
/-- The child loop of Go `encodeNode`: each child encoded in order, a nil
child as the single byte `0x00` (what `encodeNode(nil)` writes). -/
def encodeKids : List (Option BNode) → List Nat
  | [] => []
  | none :: rest => 0 :: encodeKids rest
  | some c :: rest => encodeNodeCore c ++ encodeKids rest
  termination_by structural l => l
end

/-- Go `EncodeBinaryNode` (via `encodeNode`, whose nil case writes `0x00`). -/
def EncodeBinaryNode : Option BNode → List Nat
  | none => [0]
  | some n => encodeNodeCore n

/-- The attribute loop of Go `decodeNode`: `count` key-value pairs, errors
propagated. -/
def decodeAttrs : Nat → List Nat → Option (List (List Nat × List Nat) × List Nat)
  | 0, l => some ([], l)
  | count + 1, l =>
    match decodeString l with
    | none => none
    | some (k, l1) =>
      match decodeString l1 with
      | none => none
      | some (v, l2) =>
        match decodeAttrs count l2 with
        | none => none
        | some (rest, l3) => some ((k, v) :: rest, l3)

mutual
/-- Go `decodeNode` (fuel-indexed; the mutual recursion decrements the fuel at
every child step and sibling step, and fuel `>` stream length always
dominates it, each step being backed by at least one consumed byte).  A zero descriptor is a nil
node.  With content present, a peeked first byte `< 128` is a child count
(at end of stream the ignored read errors leave a zero count, giving an empty
child list); otherwise the content is a byte string. -/
def decodeNodeF : Nat → List Nat → Option (Option BNode × List Nat)
  | 0, _ => none
  | _ + 1, [] => none
  | fuel + 1, descriptor :: rest =>
    if descriptor = 0 then some (none, rest)
    else
      match decodeString rest with
      | none => none
      | some (tag, r1) =>
        match decodeAttrs (descriptor / 2) r1 with
        | none => none
        | some (attrs, r2) =>
          if descriptor % 2 = 1 then
            match r2 with
            | [] => some (some (.mk tag attrs (some (.kids []))), [])
            | ct :: r3 =>
              if ct < 128 then
                match decodeKidsF fuel ct (ct :: r3).tail with
                | none => none
                | some (cs, r4) => some (some (.mk tag attrs (some (.kids cs))), r4)
              else
                match decodeBytes (ct :: r3) with
                | none => none
                | some (d, r4) => some (some (.mk tag attrs (some (.bytes d))), r4)
          else some (some (.mk tag attrs none), r2)
  termination_by structural fuel _ => fuel
/-- The child loop of Go `decodeNode`: `count` recursive decodes. -/
def decodeKidsF : Nat → Nat → List Nat → Option (List (Option BNode) × List Nat)
  | _, 0, l => some ([], l)
  | 0, _ + 1, _ => none
  | fuel + 1, count + 1, l =>
    match decodeNodeF fuel l with
    | none => none
    | some (c, l1) =>
      match decodeKidsF fuel count l1 with
      | none => none
      | some (cs, l2) => some (c :: cs, l2)
  termination_by structural fuel _ _ => fuel
end

/-- Go `DecodeBinaryNode`: decode one node from the front of the data (any
trailing bytes are ignored); the outer `Option` is the error result, the inner
one the nil node. -/
def DecodeBinaryNode (data : List Nat) : Option (Option BNode) :=
  match decodeNodeF (data.length + 1) data with
  | none => none
  | some (n, _) => some n

/-- Pairwise-distinct keys (the invariant a Go map's key set satisfies). -/
def nodupKeys : List (List Nat) → Bool
  | [] => true
  | k :: rest => !(rest.contains k) && nodupKeys rest

/-- A string whose `encodeString` image decodes back to it: either a
dictionary token whose index fits in the single truncated index byte
(`< 256`), or a non-dictionary string short enough (`< 48`) that its length
byte indexes an empty dictionary slot. -/
def goodString (s : List Nat) : Bool :=
  match lookupDict s with
  | some i => decide (i < 256)
  | none => decide (s.length < 48)

mutual
/-- The well-formed binary nodes on which the codec round-trips: a non-zero
descriptor (at least one attribute or some content), fewer than 128
attributes, round-trippable strings, distinct attribute keys, and content
that is absent, a byte string in `[128, 2^32) \ {254}`, or fewer than 128
non-nil well-formed children.  String content never round-trips (the decoder
returns bytes), nor do the excluded boundary shapes. -/
def wfNode : BNode → Bool
  | .mk tag attrs content =>
    goodString tag && decide (attrs.length < 128)
      && (!attrs.isEmpty || content.isSome)
      && attrs.all (fun kv => goodString kv.1 && goodString kv.2)
      && nodupKeys (attrs.map Prod.fst)
      && (match content with
          | none => true
          | some (.bytes d) =>
            decide (128 ≤ d.length) && decide (d.length ≠ 254)
              && decide (d.length < 4294967296)
          | some (.str _) => false
          | some (.kids cs) => decide (cs.length < 128) && wfKids cs)
  termination_by structural n => n
/-- All children non-nil and well-formed. -/
def wfKids : List (Option BNode) → Bool
  | [] => true
  | none :: _ => false
  | some c :: rest => wfNode c && wfKids rest
  termination_by structural l => l
end

/-! ### Dictionary and string round-trip lemmas -/

theorem tagDictionary_length : tagDictionary.length = 329 := by
  rw [tagDictionary, List.length_map]
  rfl

theorem tagDictionary_getD_lt48 : ∀ b, b < 48 → tagDictionary.getD b [] = [] := by
  decide

theorem lookupDictFrom_spec :
    ∀ (l : List (List Nat)) (j s i), lookupDictFrom j l s = some i →
      j ≤ i ∧ i - j < l.length ∧ l.getD (i - j) [] = s ∧ s ≠ [] := by
  intro l
  induction l with
  | nil => intro j s i h; simp [lookupDictFrom] at h
  | cons d rest ih =>
    intro j s i h
    rw [lookupDictFrom] at h
    by_cases hd : d = s ∧ d ≠ []
    · rw [if_pos hd] at h
      obtain rfl : j = i := Option.some.inj h
      refine ⟨Nat.le_refl _, by simp, ?_, ?_⟩
      · simp [hd.1]
      · rw [← hd.1]; exact hd.2
    · rw [if_neg hd] at h
      obtain ⟨h1, h2, h3, h4⟩ := ih (j + 1) s i h
      refine ⟨by omega, by simp; omega, ?_, h4⟩
      rw [show i - j = (i - (j + 1)) + 1 from by omega] at *
      simpa using h3

theorem lookupDict_spec {s : List Nat} {i : Nat} (h : lookupDict s = some i) :
    i < 329 ∧ tagDictionary.getD i [] = s ∧ s ≠ [] := by
  obtain ⟨_, h2, h3, h4⟩ := lookupDictFrom_spec tagDictionary 0 s i h
  rw [Nat.sub_zero] at h2 h3
  rw [tagDictionary_length] at h2
  exact ⟨h2, h3, h4⟩

theorem readPad_append (s r : List Nat) : readPad s.length (s ++ r) = (s, r) := by
  simp [readPad, List.take_left, List.drop_left]

theorem decodeString_encodeString {s : List Nat} (r : List Nat)
    (h : goodString s = true) : decodeString (encodeString s ++ r) = some (s, r) := by
  rw [goodString] at h
  rcases hd : lookupDict s with _ | i <;> simp only [hd] at h
  · -- raw string of length < 48
    have hlen : s.length < 48 := by simpa using h
    simp only [encodeString, hd, if_pos (by omega : s.length < 128)]
    rw [List.cons_append, decodeString]
    rw [if_neg (by
      rintro ⟨-, hne⟩
      exact hne (tagDictionary_getD_lt48 s.length hlen))]
    simp only [if_neg (by omega : ¬ s.length = 253)]
    rw [readPad_append]
  · -- dictionary token with index < 256
    have hi : i < 256 := by simpa using h
    obtain ⟨hilen, hget, hne⟩ := lookupDict_spec hd
    simp only [encodeString, hd, Nat.mod_eq_of_lt hi]
    rw [List.cons_append, List.nil_append, decodeString]
    rw [if_pos ⟨by rw [tagDictionary_length]; omega, by rw [hget]; exact hne⟩, hget]

theorem encodeString_length_pos (s : List Nat) : 0 < (encodeString s).length := by
  rcases hd : lookupDict s with _ | i <;> simp only [encodeString, hd]
  · split <;> simp
  · simp

theorem decodeBytes_cons (b : Nat) (rest : List Nat) :
    decodeBytes (b :: rest)
      = some (readPad (if b = 254 then readU32 rest else (b, rest)).1
          (if b = 254 then readU32 rest else (b, rest)).2) := rfl

theorem decodeBytes_encodeBytes {d : List Nat} (r : List Nat)
    (h1 : 128 ≤ d.length) (h2 : d.length ≠ 254) (h3 : d.length < 4294967296) :
    decodeBytes (encodeBytes d ++ r) = some (d, r) := by
  rw [encodeBytes]
  by_cases hsmall : d.length < 256
  · rw [if_pos hsmall]
    simp only [List.cons_append, List.nil_append]
    simp only [decodeBytes_cons, if_neg h2]
    rw [readPad_append]
  · rw [if_neg hsmall, Nat.mod_eq_of_lt h3]
    simp only [List.cons_append]
    simp only [decodeBytes_cons, if_pos rfl]
    have hval : readU32 (be32 d.length ++ (d ++ r)) = (d.length, d ++ r) := by
      rw [readU32, be32]
      simp only [List.cons_append, List.getD_cons_zero, List.getD_cons_succ,
        List.length_cons, List.drop_succ_cons, List.drop_zero]
      rw [if_pos (by omega)]
      refine Prod.ext ?_ rfl
      simp only []
      omega
    rw [List.append_assoc, hval]
    simp [readPad_append d r]

theorem encodeBytes_head (d : List Nat) (h1 : 128 ≤ d.length) :
    ∃ b t, encodeBytes d = b :: t ∧ 128 ≤ b := by
  rw [encodeBytes]
  by_cases hsmall : d.length < 256
  · exact ⟨d.length, d, by rw [if_pos hsmall]; rfl, h1⟩
  · exact ⟨254, be32 (d.length % 4294967296) ++ d, by rw [if_neg hsmall]; rfl, by omega⟩

theorem decodeAttrs_encodeAttrsList :
    ∀ (attrs : List (List Nat × List Nat)) (r : List Nat),
      (∀ kv ∈ attrs, goodString kv.1 = true ∧ goodString kv.2 = true) →
      decodeAttrs attrs.length (encodeAttrsList attrs ++ r) = some (attrs, r) := by
  intro attrs
  induction attrs with
  | nil => intro r _; rw [encodeAttrsList, List.nil_append, List.length_nil, decodeAttrs]
  | cons kv rest ih =>
    intro r h
    obtain ⟨hk, hv⟩ := h kv (by simp)
    simp only [encodeAttrsList, List.length_cons, decodeAttrs, List.append_assoc,
      decodeString_encodeString _ hk, decodeString_encodeString _ hv,
      ih r (fun kv2 hkv2 => h kv2 (by simp [hkv2]))]

theorem encodeNodeCore_length_ge2 (n : BNode) : 2 ≤ (encodeNodeCore n).length := by
  obtain ⟨tag, attrs, content⟩ := n
  have := encodeString_length_pos tag
  rcases content with _ | c
  · simp [encodeNodeCore]
    omega
  · rcases c with d | str | cs <;> simp [encodeNodeCore] <;> omega

theorem decodeKidsF_zero (fuel : Nat) (l : List Nat) :
    decodeKidsF fuel 0 l = some ([], l) := by
  cases fuel <;> rfl

theorem decodeKidsF_encode
    (k : Nat)
    (ih : ∀ n : BNode, sizeOf n ≤ k → ∀ fuel r, wfNode n = true →
      (encodeNodeCore n).length < fuel →
      decodeNodeF fuel (encodeNodeCore n ++ r) = some (some n, r)) :
    ∀ cs : List (Option BNode), (∀ c : BNode, some c ∈ cs → sizeOf c ≤ k) →
      ∀ fuel r, wfKids cs = true → (encodeKids cs).length + 1 < fuel →
      decodeKidsF fuel cs.length (encodeKids cs ++ r) = some (cs, r) := by
  intro cs
  induction cs with
  | nil =>
    intro _ fuel r _ _
    rw [encodeKids, List.nil_append, List.length_nil, decodeKidsF_zero]
  | cons c rest ihr =>
    intro hmem fuel r hwfk hfl
    cases c with
    | none => rw [wfKids] at hwfk; exact absurd hwfk (by simp)
    | some c' =>
      rw [wfKids, Bool.and_eq_true] at hwfk
      obtain ⟨hwfc, hwfrest⟩ := hwfk
      have hc2 := encodeNodeCore_length_ge2 c'
      rw [encodeKids] at hfl ⊢
      rw [List.length_append] at hfl
      obtain ⟨f, rfl⟩ : ∃ f, fuel = f + 1 := ⟨fuel - 1, by omega⟩
      simp only [List.length_cons, List.append_assoc]
      rw [decodeKidsF]
      simp only [ih c' (hmem c' (by simp)) f (encodeKids rest ++ r) hwfc (by omega),
        ihr (fun c hc => hmem c (by simp [hc])) f r hwfrest (by omega)]

theorem decodeNodeF_encode :
    ∀ (k : Nat) (n : BNode), sizeOf n ≤ k → ∀ fuel r, wfNode n = true →
      (encodeNodeCore n).length < fuel →
      decodeNodeF fuel (encodeNodeCore n ++ r) = some (some n, r) := by
  intro k
  induction k with
  | zero =>
    intro n hsz
    obtain ⟨tag, attrs, content⟩ := n
    exfalso
    simp at hsz
  | succ k ih =>
    intro n hsz fuel r hwf hfuel
    obtain ⟨tag, attrs, content⟩ := n
    rw [wfNode.eq_def] at hwf
    simp only [Bool.and_eq_true, decide_eq_true_eq] at hwf
    obtain ⟨⟨⟨⟨⟨htag, hattrlen⟩, hne0⟩, hallgoodB⟩, hnodup⟩, hcontent⟩ := hwf
    have hallgood : ∀ kv ∈ attrs, goodString kv.1 = true ∧ goodString kv.2 = true := by
      intro kv hkv
      have h := List.all_eq_true.mp hallgoodB kv hkv
      simpa [Bool.and_eq_true] using h
    obtain ⟨f, rfl⟩ : ∃ f, fuel = f + 1 := ⟨fuel - 1, by omega⟩
    have hdiv : attrs.length * 2 / 2 = attrs.length := by omega
    rcases content with _ | c
    · -- no content
      have hne : attrs.length ≠ 0 := by
        rcases attrs with _ | ⟨kv, rest⟩
        · simp at hne0
        · simp
      have hmod256 : (attrs.length * 2 + if (none : Option BContent).isSome then 1 else 0) % 256
          = attrs.length * 2 := by
        simp only [Option.isSome_none, Bool.false_eq_true, if_false]
        omega
      simp only [encodeNodeCore, hmod256, List.append_nil, List.cons_append, List.append_assoc]
      rw [decodeNodeF]
      rw [if_neg (by omega : ¬ attrs.length * 2 = 0)]
      simp only [decodeString_encodeString _ htag, hdiv,
        decodeAttrs_encodeAttrsList attrs r hallgood]
      rw [if_neg (by omega : ¬ attrs.length * 2 % 2 = 1)]
    · rcases c with d | str | cs
      · -- byte-string content
        obtain ⟨⟨h128, h254⟩, h32⟩ : (128 ≤ d.length ∧ d.length ≠ 254) ∧ d.length < 4294967296 := by
          simpa [Bool.and_eq_true] using hcontent
        have hmod256 : (attrs.length * 2
              + if (some (BContent.bytes d)).isSome then 1 else 0) % 256
            = attrs.length * 2 + 1 := by
          simp only [Option.isSome_some, if_true]
          omega
        simp only [encodeNodeCore, hmod256, List.cons_append, List.append_assoc]
        rw [decodeNodeF]
        rw [if_neg (by omega : ¬ attrs.length * 2 + 1 = 0)]
        simp only [decodeString_encodeString _ htag,
          show (attrs.length * 2 + 1) / 2 = attrs.length from by omega,
          decodeAttrs_encodeAttrsList attrs (encodeBytes d ++ r) hallgood]
        rw [if_pos (by omega : (attrs.length * 2 + 1) % 2 = 1)]
        obtain ⟨hb, t, heq, hge⟩ := encodeBytes_head d h128
        rw [heq, List.cons_append]
        dsimp only
        rw [if_neg (by omega : ¬ hb < 128)]
        rw [← List.cons_append, ← heq, decodeBytes_encodeBytes r h128 h254 h32]
      · -- string content is never well-formed
        exfalso
        simp at hcontent
      · -- child-list content
        obtain ⟨hcs128, hwfkids⟩ : cs.length < 128 ∧ wfKids cs = true := by
          simpa [Bool.and_eq_true] using hcontent
        have hchild : ∀ c : BNode, some c ∈ cs → sizeOf c ≤ k := by
          intro c hc
          have h1 := List.sizeOf_lt_of_mem hc
          simp at h1 hsz
          omega
        have hmod256 : (attrs.length * 2
              + if (some (BContent.kids cs)).isSome then 1 else 0) % 256
            = attrs.length * 2 + 1 := by
          simp only [Option.isSome_some, if_true]
          omega
        have hmodcs : cs.length % 256 = cs.length := by omega
        have hkfl : (encodeKids cs).length + 1 < f := by
          have hp := encodeString_length_pos tag
          simp only [encodeNodeCore, List.length_append, List.length_cons] at hfuel
          omega
        simp only [encodeNodeCore, hmod256, hmodcs, List.cons_append, List.append_assoc]
        rw [decodeNodeF]
        rw [if_neg (by omega : ¬ attrs.length * 2 + 1 = 0)]
        simp only [decodeString_encodeString _ htag,
          show (attrs.length * 2 + 1) / 2 = attrs.length from by omega,
          decodeAttrs_encodeAttrsList attrs (cs.length :: (encodeKids cs ++ r)) hallgood]
        rw [if_pos (by omega : (attrs.length * 2 + 1) % 2 = 1)]
        rw [if_pos hcs128]
        simp only [List.tail_cons]
        rw [decodeKidsF_encode k ih cs hchild f r hwfkids hkfl]

/-! ### C1: binary-node round-trip -/

/-- Counterexample for C1.  `{Tag: "iq"}` — a well-formed node by the claim's
own definition (content absent) — encodes with descriptor byte `0x00`
(no attributes, no content), which the decoder takes as the nil node: the
round-trip loses the node entirely. -/
theorem binarynode_roundtrip_counterexample :
    DecodeBinaryNode (EncodeBinaryNode (some (BNode.mk (strBytes "iq") [] none))) = some none
    ∧ some (none : Option BNode) ≠ some (some (BNode.mk (strBytes "iq") [] none)) :=
  ⟨rfl, fun h => Option.noConfusion (Option.some.inj h)⟩

/-- C1 (amended).  `DecodeBinaryNode (EncodeBinaryNode t) = t` — including
child order and the attribute association — holds for every tree in which
each node has at least one attribute or some content, fewer than 128
attributes, distinct attribute keys, tag and attribute strings that are
dictionary tokens of index `< 256` or non-dictionary strings shorter than 48
bytes, and content that is absent, a byte string with length in
`[128, 2^32) \ {254}`, or a list of fewer than 128 non-nil such nodes.
Outside this class the codec loses data: a zero descriptor reads back as nil,
string content is returned as bytes, a byte string shorter than 128 is
mistaken for a child list, and dictionary indices ≥ 256 or raw lengths in
`[48, 127]` collide with other tokens. -/
theorem binarynode_roundtrip (n : BNode) (h : wfNode n = true) :
    DecodeBinaryNode (EncodeBinaryNode (some n)) = some (some n) := by
  rw [EncodeBinaryNode, DecodeBinaryNode]
  have h1 := decodeNodeF_encode (sizeOf n) n (Nat.le_refl _)
    ((encodeNodeCore n).length + 1) [] h (by omega)
  rw [List.append_nil] at h1
  rw [h1]

/-- A concrete well-formed tree: dictionary tags, a raw attribute value, and a
child carrying a 130-byte blob. -/
def demoNode : BNode :=
  .mk (strBytes "message")
    [(strBytes "id", strBytes "abc"), (strBytes "from", strBytes "zz@x")]
    (some (.kids [some (.mk (strBytes "body") [] (some (.bytes (List.replicate 130 7))))]))

/-- Witness for C1 (amended): the round-trip theorem applied to `demoNode`. -/
theorem binarynode_roundtrip_witness :
    wfNode demoNode = true
    ∧ DecodeBinaryNode (EncodeBinaryNode (some demoNode)) = some (some demoNode) :=
  ⟨rfl, binarynode_roundtrip demoNode rfl⟩

/-! ### C5: dictionary idempotence -/

/-- Counterexample for C5.  The 48-byte string `"aaa…a"` is not in the
dictionary, yet its encoding (length byte 48 followed by the raw bytes)
decodes to the dictionary token `"1"` at index 48 — a collision.  Moreover a
dictionary hit is written as `byte(i)`: the token `"type"` at index 302
encodes to the single byte `46 = 302 mod 256`, not its dictionary index. -/
theorem dictionary_collision_counterexample :
    lookupDict (List.replicate 48 97) = none
    ∧ decodeString (encodeString (List.replicate 48 97))
        = some (strBytes "1", List.replicate 48 97)
    ∧ strBytes "1" ≠ List.replicate 48 97
    ∧ lookupDict (strBytes "type") = some 302
    ∧ encodeString (strBytes "type") = [46] :=
  ⟨by decide, by decide, by decide, by decide, by decide⟩

/-- C5 (amended).  A string that appears in the dictionary at an index `< 256`
encodes to exactly one byte, its dictionary index, and decodes back; a string
not in the dictionary whose length is `< 48` (the empty-slot region) never
collides with a dictionary index on decode, and the original string is
returned.  For dictionary indices `≥ 256` the index byte is truncated, and
for raw lengths in `[48, 127]` (or ≥ 128, where the `0xFD` prefix hits token
`"selected"` at index 253) the first byte does collide with a dictionary
token. -/
theorem dictionary_idempotence_amended :
    (∀ s i, lookupDict s = some i → i < 256 →
        encodeString s = [i] ∧ ∀ r, decodeString (encodeString s ++ r) = some (s, r))
    ∧ (∀ s : List Nat, lookupDict s = none → s.length < 48 →
        ∀ r, decodeString (encodeString s ++ r) = some (s, r)) := by
  constructor
  · intro s i hd hi
    refine ⟨by simp [encodeString, hd, Nat.mod_eq_of_lt hi], fun r => ?_⟩
    exact decodeString_encodeString r (by simp [goodString, hd, hi])
  · intro s hd hlen r
    exact decodeString_encodeString r (by simp [goodString, hd, hlen])

/-- Witness for C5 (amended): the dictionary token `"iq"` (index 156) and the
raw two-byte string `"aa"`. -/
theorem dictionary_idempotence_witness :
    encodeString (strBytes "iq") = [156]
    ∧ decodeString (encodeString (strBytes "iq") ++ [7]) = some (strBytes "iq", [7])
    ∧ decodeString (encodeString [97, 97] ++ []) = some ([97, 97], []) :=
  ⟨(dictionary_idempotence_amended.1 (strBytes "iq") 156 (by decide) (by decide)).1,
   (dictionary_idempotence_amended.1 (strBytes "iq") 156 (by decide) (by decide)).2 [7],
   dictionary_idempotence_amended.2 [97, 97] (by decide) (by decide) []⟩

/-! ### C9: session manager uniqueness -/

/-- Errors returned by the session manager (part_003). -/
inductive SMError where
  | sessionExists
  | sessionNotFound
deriving DecidableEq, Repr

/-- Session-manager state: the `sessions` map as an association list from
session identifier to client handle, plus a counter supplying the fresh
handle that `NewWAClient` allocates on each call. -/
structure SMState where
  sessions : List (String × Nat)
  nextClient : Nat
deriving DecidableEq, Repr

/-- Go map lookup `sm.sessions[sessionID]` on the association list. -/
def smLookup : List (String × Nat) → String → Option Nat
  | [], _ => none
  | (k, v) :: rest, sid => if k = sid then some v else smLookup rest sid

/-- `CreateSession`: an existing identifier yields `ErrSessionExists` and the
state is untouched; otherwise a fresh client is stored under the identifier. -/
def CreateSession (st : SMState) (sessionID : String) :
    Except SMError Nat × SMState :=
  match smLookup st.sessions sessionID with
  | some _ => (Except.error SMError.sessionExists, st)
  | none =>
      (Except.ok st.nextClient,
       ⟨(sessionID, st.nextClient) :: st.sessions, st.nextClient + 1⟩)

/-- `DeleteSession`: an absent identifier yields `ErrSessionNotFound` and the
state is untouched; otherwise the entry is removed from the map. -/
def DeleteSession (st : SMState) (sessionID : String) :
    Option SMError × SMState :=
  match smLookup st.sessions sessionID with
  | none => (some SMError.sessionNotFound, st)
  | some _ =>
      (none, ⟨st.sessions.filter (fun p => p.1 != sessionID), st.nextClient⟩)

/-- One operation on the session manager. -/
inductive SMOp where
  | create (sessionID : String)
  | delete (sessionID : String)
deriving DecidableEq, Repr

/-- State effect of one operation. -/
def applyOp (st : SMState) (op : SMOp) : SMState :=
  match op with
  | .create sid => (CreateSession st sid).2
  | .delete sid => (DeleteSession st sid).2

/-- Run a sequence of operations from the fresh manager of
`NewSessionManager` (empty map). -/
def runOps (ops : List SMOp) : SMState :=
  ops.foldl applyOp ⟨[], 0⟩

/-- Manager invariant: identifiers are pairwise distinct, client handles are
pairwise distinct, and every stored handle is below the allocation counter. -/
def smInv (st : SMState) : Prop :=
  (st.sessions.map Prod.fst).Nodup
  ∧ (st.sessions.map Prod.snd).Nodup
  ∧ ∀ p ∈ st.sessions, p.2 < st.nextClient

theorem smLookup_eq_none {l : List (String × Nat)} {sid : String}
    (h : smLookup l sid = none) : ∀ p ∈ l, p.1 ≠ sid := by
  induction l with
  | nil => intro p hp; cases hp
  | cons q rest ih =>
    obtain ⟨k, v⟩ := q
    intro p hp
    by_cases hq : k = sid
    · simp [smLookup, hq] at h
    · simp only [smLookup, if_neg hq] at h
      rcases List.mem_cons.1 hp with hp | hp
      · rw [hp]; exact hq
      · exact ih h p hp

theorem smInv_applyOp {st : SMState} (h : smInv st) (op : SMOp) :
    smInv (applyOp st op) := by
  obtain ⟨hk, hc, hb⟩ := h
  cases op with
  | create sid =>
    show smInv (CreateSession st sid).2
    rw [CreateSession]
    cases hlook : smLookup st.sessions sid with
    | some c => exact ⟨hk, hc, hb⟩
    | none =>
      dsimp only
      refine ⟨?_, ?_, ?_⟩
      · refine List.nodup_cons.2 ⟨?_, hk⟩
        intro hmem
        obtain ⟨p, hp, hpe⟩ := List.mem_map.1 hmem
        exact smLookup_eq_none hlook p hp hpe
      · refine List.nodup_cons.2 ⟨?_, hc⟩
        intro hmem
        obtain ⟨p, hp, hpe⟩ := List.mem_map.1 hmem
        exact absurd (hpe ▸ hb p hp) (lt_irrefl _)
      · intro p hp
        rcases List.mem_cons.1 hp with hp | hp
        · rw [hp]; exact Nat.lt_succ_self _
        · exact Nat.lt_succ_of_lt (hb p hp)
  | delete sid =>
    show smInv (DeleteSession st sid).2
    rw [DeleteSession]
    cases hlook : smLookup st.sessions sid with
    | none => exact ⟨hk, hc, hb⟩
    | some c =>
      dsimp only
      refine ⟨?_, ?_, ?_⟩
      · exact ((List.filter_sublist _).map Prod.fst).nodup hk
      · exact ((List.filter_sublist _).map Prod.snd).nodup hc
      · intro p hp
        exact hb p (List.mem_of_mem_filter hp)

theorem smInv_runOps (ops : List SMOp) : smInv (runOps ops) := by
  have h : ∀ st, smInv st → smInv (ops.foldl applyOp st) := by
    induction ops with
    | nil => intro st hst; exact hst
    | cons op rest ih => intro st hst; exact ih _ (smInv_applyOp hst op)
  exact h ⟨[], 0⟩ ⟨by simp, by simp, by intro p hp; cases hp⟩

/-- C9.  After any sequence of `CreateSession` / `DeleteSession` operations on
a fresh `SessionManager`, the identifier-to-client mapping remains a function
(identifiers are pairwise distinct, and no two sessions share a client
handle); `CreateSession` on a present identifier fails with
`ErrSessionExists` leaving the state unchanged, and `DeleteSession` on an
absent identifier fails with `ErrSessionNotFound` leaving the state
unchanged. -/
theorem session_uniqueness (ops : List SMOp) (st : SMState) (sid : String) :
    ((runOps ops).sessions.map Prod.fst).Nodup
    ∧ ((runOps ops).sessions.map Prod.snd).Nodup
    ∧ ((smLookup st.sessions sid).isSome = true →
        CreateSession st sid = (Except.error SMError.sessionExists, st))
    ∧ (smLookup st.sessions sid = none →
        DeleteSession st sid = (some SMError.sessionNotFound, st)) := by
  refine ⟨(smInv_runOps ops).1, (smInv_runOps ops).2.1, ?_, ?_⟩
  · intro h
    have hs : ∃ c, smLookup st.sessions sid = some c := by
      cases hl : smLookup st.sessions sid with
      | none => rw [hl] at h; exact absurd h (by simp)
      | some c => exact ⟨c, rfl⟩
    obtain ⟨c, hcs⟩ := hs
    simp [CreateSession, hcs]
  · intro h
    simp [DeleteSession, h]

/-- Witness for C9: a concrete operation sequence (create two sessions,
remove one, re-create it) and concrete duplicate-create / missing-delete
calls. -/
theorem session_uniqueness_witness :
    (((runOps [SMOp.create "alpha", SMOp.create "beta", SMOp.delete "alpha",
        SMOp.create "alpha"]).sessions.map Prod.fst).Nodup)
    ∧ CreateSession ⟨[("alpha", 0)], 1⟩ "alpha"
        = (Except.error SMError.sessionExists, ⟨[("alpha", 0)], 1⟩)
    ∧ DeleteSession ⟨[("alpha", 0)], 1⟩ "beta"
        = (some SMError.sessionNotFound, ⟨[("alpha", 0)], 1⟩) := by
  refine ⟨(session_uniqueness [SMOp.create "alpha", SMOp.create "beta",
      SMOp.delete "alpha", SMOp.create "alpha"] ⟨[("alpha", 0)], 1⟩ "alpha").1,
    (session_uniqueness [] ⟨[("alpha", 0)], 1⟩ "alpha").2.2.1 (by decide),
    (session_uniqueness [] ⟨[("alpha", 0)], 1⟩ "beta").2.2.2 (by decide)⟩
